import Mathlib

/-!
# Verification of the personas signal-distribution and animation core

Shallow embedding of the core described in `spec.md`:

* the SSE fan-out hub of `src/server.mjs` (`broadcastSignal`, the
  `signalBuffer` ring buffer, the `/api/signals` and `/api/signal`
  handlers);
* the viseme/expression mapper of `src/viewer/signal-mapper.mjs`
  (`SignalMapper.map`);
* the dual-rate weight smoother and the pose transition state machine of
  `src/viewer/avatar-controller.mjs` (`animate`, `applySignal`,
  `_startNextTransition`, `_updateAnimTransition`).

Machine floats are modelled as rationals; JS objects used as
string-keyed dictionaries are modelled as association lists in
insertion order.
-/

namespace Personas

/-! ## Definitions — the shallow embedding of the source -/

/-- `const BUFFER_MAX = 200` — history buffer capacity. -/
def BUFFER_MAX : Nat := 200

/-- `signalBuffer.push(signal); if (signalBuffer.length > BUFFER_MAX) signalBuffer.shift();` -/
def pushTrim (buf : List α) (s : α) : List α :=
  if BUFFER_MAX < (buf ++ [s]).length then (buf ++ [s]).tail else buf ++ [s]

/-- One SSE subscriber (`res` in `sseClients`).  `failing := true` models a
closed connection: every `res.write` on it throws.  `received` is the ordered
list of data events successfully written to it, the history snapshot
included. -/
structure Client (α : Type) where
  failing : Bool
  received : List α
  deriving DecidableEq, Repr

/-- The hub state: the `sseClients` set (in insertion order) and the
`signalBuffer` history buffer. -/
structure Hub (α : Type) where
  clients : List (Client α)
  buffer : List α
  deriving DecidableEq, Repr

/-- The hub at process start: no subscriber, empty history. -/
def emptyHub : Hub α := { clients := [], buffer := [] }

/-- The fan-out loop of `broadcastSignal`:
`for (const res of sseClients) { try { res.write(data) } catch { sseClients.delete(res) } }`.
A failing write removes that subscriber and the loop continues. -/
def deliver (s : α) : List (Client α) → List (Client α)
  | [] => []
  | c :: rest =>
    if c.failing then deliver s rest
    else { c with received := c.received ++ [s] } :: deliver s rest

/-- `broadcastSignal(signal)`: fan out to every subscriber, then append to the
history buffer (trimming the oldest entry past capacity). -/
def broadcastSignal (hub : Hub α) (s : α) : Hub α :=
  { clients := deliver s hub.clients
    buffer := pushTrim hub.buffer s }

/-- Publish a whole sequence of signals in order. -/
def publishAll (hub : Hub α) (l : List α) : Hub α :=
  l.foldl broadcastSignal hub

/-- `GET /api/signals`: the catch-up snapshot written to a newly connecting
subscriber, oldest first (`for (const sig of signalBuffer) res.write(...)`). -/
def subscribeSnapshot (hub : Hub α) : List α := hub.buffer

/-- `GET /api/signals`: after the snapshot is written the response object is
added to `sseClients`; the new subscriber has received exactly the snapshot. -/
def subscribe (hub : Hub α) : Hub α :=
  { hub with clients := hub.clients ++ [{ failing := false, received := hub.buffer }] }

/-- A concrete three-subscriber hub (middle subscriber has a closed
connection) used to witness `publish_fanout_isolation`. -/
def wHub : Hub Nat :=
  { clients := [{ failing := false, received := [0] },
                { failing := true, received := [0] },
                { failing := false, received := [] }]
    buffer := [0] }

/-- A JSON value, the result of `JSON.parse` on a request body. -/
inductive Json where
  | null
  | bool (b : Bool)
  | num (q : ℚ)
  | str (s : String)
  | arr (elems : List Json)
  | obj (fields : List (String × Json))

/-- The two responses the `POST /api/signal` handler can send:
`sendJson(res, 200, { ok: true, count })` or
`sendJson(res, 400, { error: "Invalid JSON" })`. -/
inductive ApiResponse where
  | ok (count : Nat)
  | invalidJson
  deriving DecidableEq, Repr

/-- `const signals = Array.isArray(body) ? body : [body]` -/
def toSignalList : Json → List Json
  | .arr xs => xs
  | b => [b]

/-- The `POST /api/signal` handler.  `body = none` models `readBody`
rejecting (the request body failed `JSON.parse`); otherwise every element is
broadcast with `broadcastSignal` and the producer gets `{ ok: true, count }`.
No further validation of the payload happens anywhere in the handler. -/
def handleSignalPost (body : Option Json) (hub : Hub Json) : Hub Json × ApiResponse :=
  match body with
  | none => (hub, .invalidJson)
  | some b => (publishAll hub (toSignalList b), .ok (toSignalList b).length)

/-- Modelled from the spec: the repository has no Signal validator, so the
§3 record shape `{ code, confidence: float[0,1], uncertainty: float[0,1],
interTokenDelayMs: uint, sequence: uint }` is transcribed here to state what
"fails to validate as a Signal" means. -/
def isValidSignal : Json → Bool
  | .obj fields =>
    (match fields.lookup "code" with | some (.str _) => true | _ => false)
    && (match fields.lookup "confidence" with
        | some (.num q) => decide (0 ≤ q) && decide (q ≤ 1) | _ => false)
    && (match fields.lookup "uncertainty" with
        | some (.num q) => decide (0 ≤ q) && decide (q ≤ 1) | _ => false)
    && (match fields.lookup "interTokenDelayMs" with
        | some (.num q) => decide (0 ≤ q) && (q.den == 1) | _ => false)
    && (match fields.lookup "sequence" with
        | some (.num q) => decide (0 ≤ q) && (q.den == 1) | _ => false)
  | _ => false

/-- Modelled from the spec: the §3 PoseCommand record shape
`{ kind: "pose", channelWeights: mapping(channelName → float) }`, stating
what "fails to validate as a PoseCommand" means. -/
def isValidPoseCommand : Json → Bool
  | .obj fields =>
    (match fields.lookup "kind" with | some (.str k) => k == "pose" | _ => false)
    && (match fields.lookup "channelWeights" with
        | some (.obj ws) =>
          ws.all (fun p => match p.2 with | .num _ => true | _ => false)
        | _ => false)
  | _ => false

/-- The `VISEME_ANIM` table: LFS viseme code → Ellie mouth animation name.
`HH` and `SIL` map to `null`; so does any unknown code
(`VISEME_ANIM[v] || null`). -/
def visemeAnim (v : String) : Option String :=
  if v = "AA" then some "Ellie Mouth Aa"
  else if v = "AH" then some "Ellie Mouth Aa"
  else if v = "AE" then some "Ellie Mouth Aa"
  else if v = "AY" then some "Ellie Mouth Aa"
  else if v = "EH" then some "Ellie mouth Eh"
  else if v = "ER" then some "Ellie mouth Eh"
  else if v = "EE" then some "Ellie mouth Ee"
  else if v = "IH" then some "Ellie mouth Ee"
  else if v = "IY" then some "Ellie mouth Ee"
  else if v = "OO" then some "Ellie mouth Oo"
  else if v = "OW" then some "Ellie mouth Oo"
  else if v = "AW" then some "Ellie mouth Oo"
  else if v = "UH" then some "Ellie mouth Uu"
  else if v = "UW" then some "Ellie mouth Uu"
  else if v = "PP" then some "Ellie mouth squeeze"
  else if v = "BB" then some "Ellie mouth squeeze"
  else if v = "MM" then some "Ellie mouth squeeze"
  else if v = "FF" then some "Ellie mouth Eh"
  else if v = "VV" then some "Ellie mouth Eh"
  else if v = "TH" then some "Ellie mouth Eh"
  else if v = "DH" then some "Ellie mouth Eh"
  else if v = "SS" then some "Ellie mouth Ee"
  else if v = "ZZ" then some "Ellie mouth Ee"
  else if v = "NN" then some "Ellie Mouth Aa"
  else if v = "DD" then some "Ellie mouth Ee"
  else if v = "TT" then some "Ellie mouth Ee"
  else if v = "SH" then some "Ellie mouth Uu"
  else if v = "ZH" then some "Ellie mouth Uu"
  else if v = "CH" then some "Ellie mouth Uu"
  else if v = "JH" then some "Ellie mouth Uu"
  else if v = "KK" then some "Ellie Mouth Aa"
  else if v = "GG" then some "Ellie Mouth Aa"
  else if v = "NG" then some "Ellie Mouth Aa"
  else if v = "LL" then some "Ellie mouth Eh"
  else if v = "RR" then some "Ellie mouth Eh"
  else if v = "WW" then some "Ellie mouth Oo"
  else if v = "YY" then some "Ellie mouth Ee"
  else none

/-- `MOUTH_ANIMS`. -/
def MOUTH_ANIMS : List String :=
  ["Ellie Mouth Aa", "Ellie mouth Ee", "Ellie mouth Eh",
   "Ellie mouth Oo", "Ellie mouth Uu", "Ellie mouth squeeze"]

/-- An LFS signal `{v, c, e, dt}` as destructured at the top of `map`. -/
structure Signal where
  v : String
  c : ℚ
  e : ℚ
  dt : ℚ
  deriving DecidableEq, Repr

/-- The mapper's internal timer state (`this.blinkCooldown`,
`this.ambientBlinkTimer`). -/
structure MapperState where
  blinkCooldown : ℚ
  ambientBlinkTimer : ℚ
  deriving DecidableEq, Repr

/-- `Math.max(0, Math.min(1, x))`. -/
def clamp01 (x : ℚ) : ℚ := max 0 (min 1 x)

/-- `SignalMapper.map(signal, dtFrame)`; `rand` stands for the
`Math.random()` draw used only to re-arm the ambient blink timer.  Returns
the updated timer state and the `targets` dictionary in insertion order. -/
def SignalMapper.map (st : MapperState) (sig : Signal) (dtFrame : ℚ) (rand : ℚ) :
    MapperState × List (String × ℚ) :=
  let activeAnim := visemeAnim sig.v
  let mouth := MOUTH_ANIMS.map (fun m => (m, if some m = activeAnim then (0.8 : ℚ) else 0))
  let smile : ℚ := if 0.85 < sig.c ∧ sig.e < 0.15 then (sig.c - 0.85) * 3 else 0
  let cN := clamp01 sig.c
  let eN := clamp01 sig.e
  let cd1 := st.blinkCooldown - dtFrame
  let at1 := st.ambientBlinkTimer - dtFrame
  let ambientFired := at1 ≤ 0
  let blink := (400 < sig.dt ∧ cd1 ≤ 0) ∨ ambientFired
  let at2 := if ambientFired then 3000 + rand * 3000 else at1
  let fired := blink ∧ cd1 ≤ 0
  let cd2 := if fired then 800 else cd1
  (⟨cd2, at2⟩,
    mouth ++
    [("Ellie mouth smileclosed", smile),
     ("Ellie eyemask content", cN * (1 - eN) * 0.6),
     ("Ellie eyemask relaxed", cN * 0.2),
     ("Ellie eyemask concerned", eN * 0.5),
     ("Ellie face default", (1 - eN) * cN * 0.3),
     ("Ellie face excited", if 0.9 < cN ∧ eN < 0.1 then (0.3 : ℚ) else 0),
     ("Ellie face awkward", eN * (1 - cN) * 0.4),
     ("Ellie face scared", if 0.5 < eN then (eN - 0.5) * 0.6 else 0),
     ("RIG.Ellie_Eyebrows_Down", -eN * 0.4),
     ("RIG.Ellie_Eyelid_Upper_Close-Open", if fired then (1 : ℚ) else 0),
     ("ANI-ellie.idle", 0.4),
     ("Ellie full cheerful", if 0.8 < cN then (cN - 0.8) * 0.5 else 0),
     ("Ellie full relaxed", cN * (1 - eN) * 0.15)])

/-- The signal with confidence and uncertainty replaced by their clamped
values `cN`, `uN`. -/
def clampSig (sig : Signal) : Signal :=
  { sig with c := clamp01 sig.c, e := clamp01 sig.e }

/-- Erase the one table entry computed from the unclamped inputs. -/
def zeroSmile (p : String × ℚ) : String × ℚ :=
  if p.1 = "Ellie mouth smileclosed" then (p.1, 0) else p

/-- The eyelid channel name. -/
def blinkChannel : String := "RIG.Ellie_Eyelid_Upper_Close-Open"

/-- Run `map` over a sequence of calls `(signal, dtFrame, rand)`, threading
the timer state; returns the sequence of returned target tables. -/
def mapOutputs : MapperState → List (Signal × ℚ × ℚ) → List (List (String × ℚ))
  | _, [] => []
  | st, (sig, dtF, rand) :: rest =>
    (SignalMapper.map st sig dtF rand).2
      :: mapOutputs (SignalMapper.map st sig dtF rand).1 rest

/-- A concrete signal with inter-token delay 500 ms used to witness
`blink_refractory`. -/
def wSig : Signal := ⟨"SIL", 0.85, 0.1, 500⟩

/-- `const MOUTH_LERP = 18`. -/
def MOUTH_LERP : ℚ := 18

/-- `const EXPR_LERP = 6`. -/
def EXPR_LERP : ℚ := 6

/-- `String.prototype.includes`. -/
def jsIncludes (s sub : String) : Bool := 2 ≤ (s.splitOn sub).length

/-- `const isMouth = name.includes("outh") || name.includes("squeeze");
const speed = isMouth ? MOUTH_LERP : EXPR_LERP;` -/
def lerpSpeed (name : String) : ℚ :=
  if jsIncludes name "outh" || jsIncludes name "squeeze" then MOUTH_LERP else EXPR_LERP

/-- `newWeight = current + (target - current) * Math.min(1, speed * dt)`. -/
def smoothStep (current target rate dt : ℚ) : ℚ :=
  current + (target - current) * min 1 (rate * dt)

/-- One render tick of the weight-interpolation loop over the registered
actions: `const target = this._targetWeights[name] ?? 0; ...
action.setEffectiveWeight(newWeight)`. -/
def animateTick (actions targets : List (String × ℚ)) (dt : ℚ) : List (String × ℚ) :=
  actions.map fun p =>
    (p.1, smoothStep p.2 ((targets.lookup p.1).getD 0) (lerpSpeed p.1) dt)

/-- `n` uniform render ticks of one channel against a constant target. -/
def smoothIter : Nat → ℚ → ℚ → ℚ → ℚ → ℚ
  | 0, c, _, _, _ => c
  | n + 1, c, t, rate, dt => smoothIter n (smoothStep c t rate dt) t rate dt

/-- `this._animState`: `"idle" | "fade_to_idle" | "fade_to_target" | "holding"`. -/
inductive AnimState where
  | idle
  | fadeToIdle
  | fadeToTarget
  | holding
  deriving DecidableEq, Repr

/-- A pose command's `clips` dictionary `{ name: weight }`. -/
def Pose : Type := List (String × ℚ)

instance : DecidableEq Pose := inferInstanceAs (DecidableEq (List (String × ℚ)))

/-- The pose-machine fields of the controller. -/
structure AnimMachine where
  animState : AnimState
  animQueue : List Pose
  currentAction : Option Pose
  targetAction : Option Pose
  transitionT : ℚ
  holdTimer : ℚ
  deriving DecidableEq

/-- `this._animFadeDuration = 0.5` (seconds per fade phase). -/
def ANIM_FADE : ℚ := 1 / 2

/-- `this._animHoldDuration = 2.0` (seconds to hold each pose). -/
def ANIM_HOLD : ℚ := 2

/-- The machine fields as initialised in `load()`. -/
def initMachine : AnimMachine :=
  { animState := .idle, animQueue := [], currentAction := none,
    targetAction := none, transitionT := 0, holdTimer := 0 }

/-- `_createAnimateAction(clips)`: returns the action with the highest
target weight, or `null` when no clip resolves with a positive weight
(`bestWeight` starts at `0` and only `weight > bestWeight` updates it).
`known` is membership in `this._clipsByName`; the returned action carries
the whole `clips` dict (`_poseClips`), which is all later phases use. -/
def createAnimateAction (known : String → Bool) (clips : Pose) : Option Pose :=
  if clips.any (fun p => known p.1 && decide (0 < p.2)) then some clips else none

/-- `_startNextTransition()`, unfolded on the queue it consumes
(`this._animQueue.shift()` happens before `_createAnimateAction`, and on a
`null` action the method recurses). -/
def startNextAux (known : String → Bool) : List Pose → AnimMachine → AnimMachine
  | [], m =>
    if m.animState = .holding ∧ m.currentAction ≠ none then
      { m with animQueue := [], targetAction := none,
               animState := .fadeToIdle, transitionT := 0 }
    else
      { m with animQueue := [], targetAction := none, animState := .idle }
  | clips :: rest, m =>
    let m1 := { m with animQueue := rest }
    match createAnimateAction known clips with
    | none => startNextAux known rest m1
    | some act =>
      { m1 with targetAction := some act, transitionT := 0,
                animState := if m.animState = .idle then .fadeToTarget else .fadeToIdle }

/-- `_startNextTransition()`. -/
def startNextTransition (known : String → Bool) (m : AnimMachine) : AnimMachine :=
  startNextAux known m.animQueue m

/-- The `signal.type === "animate"` branch of `applySignal`: cap the queue
at 3 dropping the oldest, push, and kick off a transition when idle. -/
def enqueuePose (known : String → Bool) (m : AnimMachine) (clips : Pose) : AnimMachine :=
  let m1 := if 3 ≤ m.animQueue.length then { m with animQueue := m.animQueue.tail } else m
  let m2 := { m1 with animQueue := m1.animQueue ++ [clips] }
  if m2.animState = .idle then startNextTransition known m2 else m2

/-- `_updateAnimTransition(dt)` — the per-frame state machine step.
Weight side effects on the rendering engine's actions are not part of the
machine state. -/
def updateAnimTransition (known : String → Bool) (dt : ℚ) (m : AnimMachine) : AnimMachine :=
  match m.animState with
  | .idle => m
  | .fadeToIdle =>
    let t := m.transitionT + dt / ANIM_FADE
    if 1 ≤ t then
      match m.targetAction with
      | some _ =>
        { m with transitionT := 0, currentAction := none, animState := .fadeToTarget }
      | none =>
        { m with transitionT := t, currentAction := none,
                 animState := .idle, animQueue := [] }
    else { m with transitionT := t }
  | .fadeToTarget =>
    let t := m.transitionT + dt / ANIM_FADE
    if 1 ≤ t then
      { m with transitionT := t, currentAction := m.targetAction,
               targetAction := none, animState := .holding, holdTimer := ANIM_HOLD }
    else { m with transitionT := t }
  | .holding =>
    let h := m.holdTimer - dt
    if h ≤ 0 then startNextTransition known { m with holdTimer := h }
    else { m with holdTimer := h }

/-- `n` render ticks of duration `dt` each. -/
def tickIter (known : String → Bool) (dt : ℚ) : Nat → AnimMachine → AnimMachine
  | 0, m => m
  | n + 1, m => tickIter known dt n (updateAnimTransition known dt m)

/-- All clip names resolve (`this._clipsByName` contains every queried
name). -/
def kAll : String → Bool := fun _ => true

/-- A concrete pose command with one known, positively weighted clip. -/
def wCmd : Pose := [("Ellie full cheerful", 1)]

/-- Machine states reachable from the controller's initial state by any
interleaving of enqueued pose commands and render ticks. -/
inductive Reaches (known : String → Bool) : AnimMachine → Prop
  | init : Reaches known initMachine
  | enqueue {m : AnimMachine} (clips : Pose) :
      Reaches known m → Reaches known (enqueuePose known m clips)
  | tick {m : AnimMachine} (dt : ℚ) :
      Reaches known m → Reaches known (updateAnimTransition known dt m)

/-- A concrete holding-state machine used to witness `pose_queue_bound`. -/
def wHold : AnimMachine :=
  { animState := .holding, animQueue := [], currentAction := some wCmd,
    targetAction := none, transitionT := 1, holdTimer := 2 }

/-! ## Theorems -/

theorem deliver_eq_filterMap (s : α) (cs : List (Client α)) :
    deliver s cs =
      (cs.filter fun c => !c.failing).map
        (fun c => { c with received := c.received ++ [s] }) := by
  induction cs with
  | nil => rfl
  | cons c rest ih =>
    by_cases h : c.failing = true <;>
      simp [deliver, h, ih, List.filter_cons]

theorem pushTrim_eq_drop (buf : List α) (s : α) (hbuf : buf.length ≤ BUFFER_MAX) :
    pushTrim buf s = (buf ++ [s]).drop (buf.length + 1 - BUFFER_MAX) := by
  rcases lt_or_eq_of_le hbuf with h | h
  · have h2 : ¬ BUFFER_MAX < (buf ++ [s]).length := by
      simp only [List.length_append, List.length_cons, List.length_nil]; omega
    have h3 : buf.length + 1 - BUFFER_MAX = 0 := by omega
    simp only [pushTrim]
    rw [if_neg h2, h3, List.drop_zero]
  · have h2 : BUFFER_MAX < (buf ++ [s]).length := by
      simp only [List.length_append, List.length_cons, List.length_nil]; omega
    have h3 : buf.length + 1 - BUFFER_MAX = 1 := by omega
    simp only [pushTrim]
    rw [if_pos h2, h3, List.drop_one]

theorem publishAll_buffer (hub : Hub α) (l : List α) :
    (publishAll hub l).buffer = l.foldl pushTrim hub.buffer := by
  induction l generalizing hub with
  | nil => rfl
  | cons s rest ih => simpa [publishAll, broadcastSignal] using ih (broadcastSignal hub s)

theorem foldl_pushTrim_eq_drop (l buf : List α) (hbuf : buf.length ≤ BUFFER_MAX) :
    l.foldl pushTrim buf = (buf ++ l).drop (buf.length + l.length - BUFFER_MAX) := by
  induction l generalizing buf with
  | nil => simp [Nat.sub_eq_zero_of_le hbuf]
  | cons s rest ih =>
    rcases lt_or_eq_of_le hbuf with h | h
    · have hnot : ¬ BUFFER_MAX < (buf ++ [s]).length := by
        simp only [List.length_append, List.length_cons, List.length_nil]; omega
      have step : pushTrim buf s = buf ++ [s] := by
        simp only [pushTrim]; rw [if_neg hnot]
      have hlen : (buf ++ [s]).length ≤ BUFFER_MAX := by
        simp only [List.length_append, List.length_cons, List.length_nil]; omega
      rw [List.foldl_cons, step, ih (buf ++ [s]) hlen]
      have e1 : buf ++ [s] ++ rest = buf ++ s :: rest := by simp
      have e2 : (buf ++ [s]).length + rest.length - BUFFER_MAX
          = buf.length + (s :: rest).length - BUFFER_MAX := by
        simp only [List.length_append, List.length_cons, List.length_nil]; omega
      rw [e1, e2]
    · -- buffer already at capacity: the oldest entry is evicted
      rcases buf with _ | ⟨b, bs⟩
      · simp [BUFFER_MAX] at h
      · simp only [List.length_cons] at h
        have hcap : BUFFER_MAX < ((b :: bs) ++ [s]).length := by
          simp only [List.length_append, List.length_cons, List.length_nil]; omega
        have step : pushTrim (b :: bs) s = bs ++ [s] := by
          simp only [pushTrim]; rw [if_pos hcap]; rfl
        have hlen : (bs ++ [s]).length ≤ BUFFER_MAX := by
          simp only [List.length_append, List.length_cons, List.length_nil]; omega
        rw [List.foldl_cons, step, ih (bs ++ [s]) hlen]
        have e1 : bs ++ [s] ++ rest = bs ++ s :: rest := by simp
        have e2 : (bs ++ [s]).length + rest.length - BUFFER_MAX = rest.length := by
          simp only [List.length_append, List.length_cons, List.length_nil]; omega
        have e3 : (b :: bs) ++ s :: rest = b :: (bs ++ s :: rest) := by simp
        have e4 : (b :: bs).length + (s :: rest).length - BUFFER_MAX
            = rest.length + 1 := by
          simp only [List.length_cons]; omega
        rw [e1, e2, e3, e4, List.drop_succ_cons]

theorem publishAll_buffer_lastN (l : List α) :
    (publishAll (emptyHub) l).buffer = l.drop (l.length - BUFFER_MAX) := by
  rw [publishAll_buffer]
  have := foldl_pushTrim_eq_drop l ([] : List α) (by simp [BUFFER_MAX])
  simpa [emptyHub] using this

theorem drop_range' : ∀ (m s n : Nat), (List.range' s n).drop m = List.range' (s + m) (n - m)
  | 0, s, n => by simp
  | m + 1, s, 0 => by simp
  | m + 1, s, n + 1 => by
    rw [List.range'_succ, List.drop_succ_cons, drop_range' m (s + 1) n]
    congr 1 <;> omega

theorem publishAll_clients_nil (l : List α) (hub : Hub α) (h : hub.clients = []) :
    (publishAll hub l).clients = [] := by
  induction l generalizing hub with
  | nil => exact h
  | cons s rest ih =>
    exact ih (broadcastSignal hub s) (by simp [broadcastSignal, h, deliver])

/-- C1: `publish(signal)` delivers the signal to every currently-registered
subscriber before returning: the subscribers after `broadcastSignal` are
exactly the previously registered non-failing ones, each with the signal
appended to its received stream (so a delivery failure removes only the
failing subscriber and does not prevent delivery to the others), and the
signal is appended to the history buffer regardless, evicting the oldest
entry when the buffer is full. -/
theorem publish_fanout_isolation (α : Type) (hub : Hub α) (s : α)
    (hbuf : hub.buffer.length ≤ BUFFER_MAX) :
    (broadcastSignal hub s).clients
        = (hub.clients.filter fun c => !c.failing).map
            (fun c => { c with received := c.received ++ [s] })
      ∧ (broadcastSignal hub s).buffer
        = (hub.buffer ++ [s]).drop (hub.buffer.length + 1 - BUFFER_MAX) := by
  constructor
  · simpa [broadcastSignal] using deliver_eq_filterMap s hub.clients
  · simpa [broadcastSignal] using pushTrim_eq_drop hub.buffer s hbuf

theorem publish_fanout_isolation_witness :
    (wHub.buffer.length ≤ BUFFER_MAX)
      ∧ ((broadcastSignal wHub 1).clients
            = (wHub.clients.filter fun c => !c.failing).map
                (fun c => { c with received := c.received ++ [1] })
          ∧ (broadcastSignal wHub 1).buffer
            = (wHub.buffer ++ [1]).drop (wHub.buffer.length + 1 - BUFFER_MAX)) :=
  ⟨by decide, publish_fanout_isolation Nat wHub 1 (by decide)⟩

/-- C2: after publishing any sequence `l` of signals into a fresh hub, the
history buffer holds exactly the most recent `min (l.length) 200` signals in
arrival order; in particular after publishing signals numbered `0..249` a new
subscriber's snapshot is exactly `50..249` oldest first, and a live event
published afterwards reaches that subscriber only after the whole
snapshot. -/
theorem history_buffer_snapshot (α : Type) (l : List α) :
    (publishAll (emptyHub : Hub α) l).buffer = l.drop (l.length - BUFFER_MAX)
      ∧ ((publishAll (emptyHub : Hub α) l).buffer).length = min l.length BUFFER_MAX
      ∧ subscribeSnapshot (publishAll (emptyHub : Hub Nat) (List.range 250))
          = List.range' 50 200
      ∧ (broadcastSignal (subscribe (publishAll (emptyHub : Hub Nat) (List.range 250))) 250).clients
          = [{ failing := false, received := List.range' 50 200 ++ [250] }] := by
  have key : ∀ (β : Type) (m : List β),
      (publishAll (emptyHub : Hub β) m).buffer = m.drop (m.length - BUFFER_MAX) :=
    fun β m => publishAll_buffer_lastN m
  have snap : subscribeSnapshot (publishAll (emptyHub : Hub Nat) (List.range 250))
      = List.range' 50 200 := by
    rw [subscribeSnapshot, key Nat (List.range 250), List.range_eq_range',
      List.length_range', drop_range']
    norm_num [BUFFER_MAX]
  refine ⟨key α l, ?_, snap, ?_⟩
  · rw [key α l, List.length_drop]
    omega
  · have hcl : (publishAll (emptyHub : Hub Nat) (List.range 250)).clients = [] :=
      publishAll_clients_nil _ _ rfl
    rw [subscribeSnapshot] at snap
    simp only [broadcastSignal, subscribe, hcl, snap]
    simp [deliver]

/-- C7 counterexample: the JSON payload `42` parses, is neither a valid
Signal nor a valid PoseCommand, yet the handler broadcasts it, appends it to
the history buffer and answers `200 { ok: true, count: 1 }` — the hub state
is changed and the producer receives no rejection. -/
theorem invalid_payload_accepted :
    isValidSignal (Json.num 42) = false
      ∧ isValidPoseCommand (Json.num 42) = false
      ∧ handleSignalPost (some (Json.num 42)) emptyHub
          = (broadcastSignal emptyHub (Json.num 42), ApiResponse.ok 1)
      ∧ (broadcastSignal (emptyHub : Hub Json) (Json.num 42)).buffer = [Json.num 42] := by
  refine ⟨rfl, rfl, rfl, ?_⟩
  simp [broadcastSignal, emptyHub, pushTrim, BUFFER_MAX]

/-- C7 (amended): the producer-facing boundary rejects exactly the payloads
that fail to parse as JSON: on a parse failure it answers
`400 Invalid JSON` and the hub (subscribers and history buffer) is left
unchanged; any successfully parsed payload — valid Signal or not — is
broadcast without further validation. -/
theorem malformed_rejected_hub_unchanged (hub : Hub Json) :
    handleSignalPost none hub = (hub, ApiResponse.invalidJson)
      ∧ ∀ b : Json, handleSignalPost (some b) hub
          = (publishAll hub (toSignalList b), ApiResponse.ok (toSignalList b).length) :=
  ⟨rfl, fun _ => rfl⟩

theorem clamp01_nonneg (x : ℚ) : 0 ≤ clamp01 x := le_max_left 0 _

theorem clamp01_le_one (x : ℚ) : clamp01 x ≤ 1 :=
  max_le (by norm_num) (min_le_left 1 x)

theorem clamp01_of_mem {x : ℚ} (h0 : 0 ≤ x) (h1 : x ≤ 1) : clamp01 x = x := by
  rw [clamp01, min_eq_right h1, max_eq_right h0]

theorem clamp01_idem (x : ℚ) : clamp01 (clamp01 x) = clamp01 x :=
  clamp01_of_mem (clamp01_nonneg x) (clamp01_le_one x)

/-- C6 counterexample: on the signal `{v: "SIL", c: 0.85, e: 1, dt: 50}` the
returned table carries weight `-0.4 < 0` on channel
`RIG.Ellie_Eyebrows_Down` (`targets["RIG.Ellie_Eyebrows_Down"] = -eN * 0.4`,
"negative = brows up"), so not every weight is non-negative. -/
theorem map_weight_negative :
    ((("RIG.Ellie_Eyebrows_Down" : String), (-(2/5) : ℚ))
        ∈ (SignalMapper.map ⟨0, 5000⟩ ⟨"SIL", 0.85, 1, 50⟩ 16 0).2)
      ∧ (-(2/5) : ℚ) < 0 := by
  constructor
  · norm_num [SignalMapper.map, MOUTH_ANIMS, clamp01, visemeAnim]
  · norm_num

/-- C6 (amended): every weight in the table returned by `map` is a rational
number (hence finite) and non-negative, with the single exception of the
`RIG.Ellie_Eyebrows_Down` channel, whose weight is non-positive (the source
uses a negative weight to raise the brows). -/
theorem map_weights_sign (st : MapperState) (sig : Signal) (dtFrame rand : ℚ)
    (p : String × ℚ) (hp : p ∈ (SignalMapper.map st sig dtFrame rand).2) :
    (p.1 ≠ "RIG.Ellie_Eyebrows_Down" → 0 ≤ p.2)
      ∧ (p.1 = "RIG.Ellie_Eyebrows_Down" → p.2 ≤ 0) := by
  have hc0 : 0 ≤ clamp01 sig.c := clamp01_nonneg _
  have hc1 : clamp01 sig.c ≤ 1 := clamp01_le_one _
  have he0 : 0 ≤ clamp01 sig.e := clamp01_nonneg _
  have he1 : clamp01 sig.e ≤ 1 := clamp01_le_one _
  simp only [SignalMapper.map, MOUTH_ANIMS, List.map_cons, List.map_nil,
    List.cons_append, List.nil_append, List.mem_cons, List.not_mem_nil, or_false] at hp
  rcases hp with h | h | h | h | h | h | h | h | h | h | h | h | h | h | h | h | h | h | h <;>
    subst h <;>
    constructor <;>
    intro hside <;>
    dsimp only at hside ⊢ <;>
    first
      | (split <;> nlinarith)
      | nlinarith
      | (exact absurd rfl hside)
      | (simp at hside)

theorem map_weights_sign_witness :
    (((("ANI-ellie.idle" : String), (0.4 : ℚ))
        ∈ (SignalMapper.map ⟨0, 5000⟩ ⟨"SIL", 0.85, 1, 50⟩ 16 0).2))
      ∧ (((("ANI-ellie.idle" : String), (0.4 : ℚ)).1 ≠ "RIG.Ellie_Eyebrows_Down"
            → 0 ≤ ((("ANI-ellie.idle" : String), (0.4 : ℚ)) : String × ℚ).2)
          ∧ ((("ANI-ellie.idle" : String), (0.4 : ℚ)).1 = "RIG.Ellie_Eyebrows_Down"
            → ((("ANI-ellie.idle" : String), (0.4 : ℚ)) : String × ℚ).2 ≤ 0)) :=
  ⟨by norm_num [SignalMapper.map, MOUTH_ANIMS, clamp01, visemeAnim],
   map_weights_sign ⟨0, 5000⟩ ⟨"SIL", 0.85, 1, 50⟩ 16 0 _
     (by norm_num [SignalMapper.map, MOUTH_ANIMS, clamp01, visemeAnim])⟩

/-- C8 counterexample: with confidence `c = 2` (out of range) the returned
table differs from the table returned on the clamped input `c = 1`: the
smile-blend line `targets["Ellie mouth smileclosed"] = c > 0.85 && e < 0.15 ?
(c - 0.85) * 3 : 0` uses the raw, unclamped confidence (`3.45` vs `0.45`), so
the output does not factor through the clamped values. -/
theorem map_not_clamped_everywhere :
    (SignalMapper.map ⟨0, 5000⟩ ⟨"SIL", 2, 0, 50⟩ 16 0).2
      ≠ (SignalMapper.map ⟨0, 5000⟩ ⟨"SIL", 1, 0, 50⟩ 16 0).2 := by
  norm_num [SignalMapper.map, MOUTH_ANIMS, clamp01, visemeAnim]

/-- C8 (amended): `map` clamps confidence and uncertainty to `[0,1]` before
use in every channel except the smile blend: the internal timer state and
every weight other than `Ellie mouth smileclosed` depend on confidence and
uncertainty only through `cN` and `uN` — on any out-of-range input they
equal their values on the clamped input.  The smile-blend weight alone reads
the raw values. -/
theorem map_factors_through_clamp (st : MapperState) (sig : Signal) (dtFrame rand : ℚ) :
    (SignalMapper.map st (clampSig sig) dtFrame rand).1
        = (SignalMapper.map st sig dtFrame rand).1
      ∧ ((SignalMapper.map st (clampSig sig) dtFrame rand).2.map zeroSmile
        = ((SignalMapper.map st sig dtFrame rand).2.map zeroSmile)) := by
  constructor
  · rfl
  · simp only [SignalMapper.map, clampSig, MOUTH_ANIMS, List.map_cons, List.map_nil,
      List.cons_append, List.nil_append, clamp01_idem]
    simp [zeroSmile]

/-- The blink entry of the returned table, with its firing condition spelled
out, and the updated timer state of `map`. -/
theorem map_blink_entry (st : MapperState) (sig : Signal) (dtFrame rand : ℚ) :
    ((blinkChannel,
        if ((400 < sig.dt ∧ st.blinkCooldown - dtFrame ≤ 0)
              ∨ st.ambientBlinkTimer - dtFrame ≤ 0)
            ∧ st.blinkCooldown - dtFrame ≤ 0 then (1 : ℚ) else 0)
        ∈ (SignalMapper.map st sig dtFrame rand).2)
      ∧ (SignalMapper.map st sig dtFrame rand).1
        = ⟨if ((400 < sig.dt ∧ st.blinkCooldown - dtFrame ≤ 0)
                ∨ st.ambientBlinkTimer - dtFrame ≤ 0)
              ∧ st.blinkCooldown - dtFrame ≤ 0
           then 800 else st.blinkCooldown - dtFrame,
           if st.ambientBlinkTimer - dtFrame ≤ 0
           then 3000 + rand * 3000 else st.ambientBlinkTimer - dtFrame⟩ := by
  constructor
  · simp [SignalMapper.map, MOUTH_ANIMS, blinkChannel]
  · rfl

theorem blink_zero_while_cooldown (calls : List (Signal × ℚ × ℚ)) :
    ∀ st : MapperState,
      (∀ r ∈ calls, 0 ≤ r.2.1) →
      (calls.map fun r => r.2.1).sum < st.blinkCooldown →
      ∀ out ∈ mapOutputs st calls, ((blinkChannel, (0 : ℚ)) ∈ out) := by
  induction calls with
  | nil => intro st _ _ out hout; simp [mapOutputs] at hout
  | cons c rest ih =>
    obtain ⟨sig, dtF, rand⟩ := c
    intro st hnn hcd out hout
    have hdF : 0 ≤ dtF := hnn (sig, dtF, rand) (List.mem_cons_self _ _)
    have hsum0 : 0 ≤ (rest.map fun r => r.2.1).sum :=
      List.sum_nonneg (by
        intro x hx
        obtain ⟨r, hr, hrx⟩ := List.mem_map.mp hx
        exact hrx ▸ hnn r (List.mem_cons_of_mem _ hr))
    simp only [List.map_cons, List.sum_cons] at hcd
    have hcd1 : ¬ st.blinkCooldown - dtF ≤ 0 := by linarith
    have hcond : ¬ (((400 < sig.dt ∧ st.blinkCooldown - dtF ≤ 0)
        ∨ st.ambientBlinkTimer - dtF ≤ 0) ∧ st.blinkCooldown - dtF ≤ 0) := by
      intro h; exact hcd1 h.2
    rcases (map_blink_entry st sig dtF rand) with ⟨hmem, hstate⟩
    rw [if_neg hcond] at hmem
    rw [if_neg hcond] at hstate
    simp only [mapOutputs, List.mem_cons] at hout
    rcases hout with hout | hout
    · exact hout ▸ hmem
    · refine ih (SignalMapper.map st sig dtF rand).1
        (fun r hr => hnn r (List.mem_cons_of_mem _ hr)) ?_ out hout
      rw [hstate]; dsimp only; linarith

/-- C9: starting with blink cooldown `0`, a call with inter-token delay
above 400 ms returns blink weight `1.0`; every following call returns blink
weight `0.0` as long as the accumulated tick time since the trigger stays
below the 800 ms refractory cooldown — whatever the inter-token delays of
those calls are, and whatever the ambient countdown `a0` does in that
window: an ambient firing inside the window only re-arms the ambient timer,
since the final `blink && blinkCooldown <= 0` check is gated by the
still-positive cooldown. -/
theorem blink_refractory (sig1 : Signal) (d1 rand1 a0 : ℚ)
    (rest : List (Signal × ℚ × ℚ))
    (h1 : 400 < sig1.dt) (hd1 : 0 ≤ d1)
    (hrest : ∀ r ∈ rest, 0 ≤ r.2.1)
    (hwin : (rest.map fun r => r.2.1).sum < 800) :
    ∃ first laters,
      mapOutputs ⟨0, a0⟩ ((sig1, d1, rand1) :: rest) = first :: laters
        ∧ ((blinkChannel, (1 : ℚ)) ∈ first)
        ∧ ∀ out ∈ laters, ((blinkChannel, (0 : ℚ)) ∈ out) := by
  have hcd1 : (0 : ℚ) - d1 ≤ 0 := by linarith
  have hcond : ((400 < sig1.dt ∧ (0 : ℚ) - d1 ≤ 0) ∨ a0 - d1 ≤ 0)
      ∧ (0 : ℚ) - d1 ≤ 0 := ⟨Or.inl ⟨h1, hcd1⟩, hcd1⟩
  rcases map_blink_entry ⟨0, a0⟩ sig1 d1 rand1 with ⟨hmem, hstate⟩
  rw [if_pos hcond] at hmem
  rw [if_pos hcond] at hstate
  refine ⟨(SignalMapper.map ⟨0, a0⟩ sig1 d1 rand1).2,
    mapOutputs (SignalMapper.map ⟨0, a0⟩ sig1 d1 rand1).1 rest, rfl, hmem, ?_⟩
  refine blink_zero_while_cooldown rest _ hrest ?_
  rw [hstate]; dsimp only; linarith

theorem blink_refractory_witness :
    (400 < wSig.dt) ∧ (0 ≤ (16 : ℚ))
      ∧ (∀ r ∈ [(wSig, (16 : ℚ), (0 : ℚ)), (wSig, 16, 0)], 0 ≤ r.2.1)
      ∧ (([(wSig, (16 : ℚ), (0 : ℚ)), (wSig, 16, 0)].map fun r => r.2.1).sum < 800)
      ∧ (∃ first laters,
          mapOutputs ⟨0, 10000⟩ ((wSig, 16, 0) :: [(wSig, 16, 0), (wSig, 16, 0)])
            = first :: laters
            ∧ ((blinkChannel, (1 : ℚ)) ∈ first)
            ∧ ∀ out ∈ laters, ((blinkChannel, (0 : ℚ)) ∈ out)) :=
  ⟨by norm_num [wSig], by norm_num,
   by intro r hr; fin_cases hr <;> norm_num,
   by norm_num,
   blink_refractory wSig 16 0 10000 [(wSig, 16, 0), (wSig, 16, 0)]
     (by norm_num [wSig]) (by norm_num)
     (by intro r hr; fin_cases hr <;> norm_num)
     (by norm_num)⟩

theorem smoothStep_sub_target (c t rate dt : ℚ) :
    smoothStep c t rate dt - t = (c - t) * (1 - min 1 (rate * dt)) := by
  rw [smoothStep]; ring

theorem smoothIter_sub_target (n : Nat) (c t rate dt : ℚ) :
    smoothIter n c t rate dt - t = (c - t) * (1 - min 1 (rate * dt)) ^ n := by
  induction n generalizing c with
  | zero => simp [smoothIter]
  | succ n ih =>
    rw [smoothIter, ih (smoothStep c t rate dt), smoothStep_sub_target]
    ring

theorem one_sub_pow_le_inv_hundred {x : ℚ} {n : Nat}
    (hx0 : 0 < x) (hx1 : x ≤ 1) (hn : 5 ≤ (n : ℚ) * x) :
    (1 - x) ^ n ≤ 1 / 100 := by
  have key : ((1 : ℝ) - (x : ℝ)) ^ n ≤ 1 / 100 := by
    have hx0R : (0 : ℝ) < (x : ℝ) := by exact_mod_cast hx0
    have hx1R : (x : ℝ) ≤ 1 := by exact_mod_cast hx1
    have hnR : (5 : ℝ) ≤ (n : ℝ) * (x : ℝ) := by exact_mod_cast hn
    have h1 : (1 : ℝ) - x ≤ Real.exp (-x) := by
      have := Real.add_one_le_exp (-(x : ℝ))
      linarith
    have h2 : ((1 : ℝ) - x) ^ n ≤ Real.exp (-(x : ℝ)) ^ n :=
      pow_le_pow_left₀ (by linarith) h1 n
    have h3 : Real.exp (-(x : ℝ)) ^ n = Real.exp ((n : ℝ) * (-(x : ℝ))) :=
      (Real.exp_nat_mul _ n).symm
    have h4 : Real.exp ((n : ℝ) * (-(x : ℝ))) ≤ Real.exp (-5) := by
      apply Real.exp_le_exp.mpr
      nlinarith
    have h5 : (100 : ℝ) ≤ Real.exp 5 := by
      have e1 : (2.7182818283 : ℝ) ^ 5 ≤ Real.exp 1 ^ 5 :=
        pow_le_pow_left₀ (by norm_num) (le_of_lt Real.exp_one_gt_d9) 5
      have e2 : Real.exp 1 ^ 5 = Real.exp 5 := by
        rw [← Real.exp_nat_mul]; norm_num
      nlinarith
    have h6 : Real.exp (-5) ≤ 1 / 100 := by
      rw [Real.exp_neg]
      have h100 : (0 : ℝ) < 100 := by norm_num
      simpa [one_div] using inv_anti₀ h100 h5
    calc ((1 : ℝ) - x) ^ n ≤ Real.exp (-(x : ℝ)) ^ n := h2
      _ = Real.exp ((n : ℝ) * (-(x : ℝ))) := h3
      _ ≤ Real.exp (-5) := h4
      _ ≤ 1 / 100 := h6
  have : ((1 - x : ℚ) : ℝ) ^ n ≤ ((1 / 100 : ℚ) : ℝ) := by push_cast; exact key
  exact_mod_cast this

/-- C3 counterexample: at the "slow" rate 6 with uniform 60 fps render
ticks, after ticks worth exactly `3/rate = 0.5 s` of tick time the weight
driven from `0` toward the constant target `1` is `1 - (9/10)^30 ≈ 0.9576`:
its distance to the target is `≈ 4.2%`, not within 1% (under any reading of
"within 1%" — of the target, absolute, or of the initial gap). -/
theorem smoother_not_within_one_percent :
    ((30 : ℚ) * (1 / 60) = 3 / 6)
      ∧ (1 / 100 : ℚ) < |smoothIter 30 0 1 6 (1 / 60) - 1| := by
  constructor
  · norm_num
  · have h : min (1 : ℚ) (6 * (1 / 60)) = 1 / 10 := by
      rw [min_eq_right] <;> norm_num
    have hgap := smoothIter_sub_target 30 0 1 6 (1 / 60)
    rw [h] at hgap
    rw [hgap, abs_mul, abs_pow]
    have h1 : |(0 : ℚ) - 1| = 1 := by norm_num
    have h2 : |(1 : ℚ) - 1 / 10| = 9 / 10 := by
      rw [abs_of_nonneg] <;> norm_num
    rw [h1, h2, one_mul]
    norm_num

/-- C3 (amended): each render tick updates each registered channel by
`current += (target - current) * min(1, rate * dt)` with `rate = 18` for
channels whose name lexically marks them as mouth channels (contains
`"outh"` or `"squeeze"`) and `rate = 6` otherwise; with the target held
constant, `|current - target|` never increases on a tick (in particular it
never overshoots); and the current weight comes within 1% of its initial
gap to the target within `5/rate` seconds of accumulated tick time (the
code's exponential approach reaches only `e⁻³ ≈ 5%` after `3/rate`
seconds). -/
theorem dual_rate_smoother :
    (∀ (name : String) (cur dt : ℚ) (targets : List (String × ℚ)),
        animateTick [(name, cur)] targets dt
          = [(name, cur + (((targets.lookup name).getD 0) - cur)
              * min 1 ((if jsIncludes name "outh" || jsIncludes name "squeeze"
                        then (18 : ℚ) else 6) * dt))])
      ∧ (∀ (c t rate dt : ℚ), 0 ≤ rate → 0 ≤ dt →
          |smoothStep c t rate dt - t| ≤ |c - t|
            ∧ (c ≤ t → c ≤ smoothStep c t rate dt ∧ smoothStep c t rate dt ≤ t)
            ∧ (t ≤ c → t ≤ smoothStep c t rate dt ∧ smoothStep c t rate dt ≤ c))
      ∧ (∀ (c t rate dt : ℚ) (n : Nat), 0 < rate → 0 < dt → rate * dt ≤ 1 →
          5 / rate ≤ (n : ℚ) * dt →
          |smoothIter n c t rate dt - t| ≤ |c - t| / 100) := by
  refine ⟨?_, ?_, ?_⟩
  · intro name cur dt targets
    simp [animateTick, smoothStep, lerpSpeed, MOUTH_LERP, EXPR_LERP]
  · intro c t rate dt hr hd
    have hm0 : 0 ≤ min 1 (rate * dt) := le_min (by norm_num) (mul_nonneg hr hd)
    have hm1 : min 1 (rate * dt) ≤ 1 := min_le_left _ _
    refine ⟨?_, ?_, ?_⟩
    · rw [smoothStep_sub_target, abs_mul]
      have h1 : |1 - min 1 (rate * dt)| ≤ 1 := abs_le.mpr ⟨by linarith, by linarith⟩
      calc |c - t| * |1 - min 1 (rate * dt)| ≤ |c - t| * 1 :=
            mul_le_mul_of_nonneg_left h1 (abs_nonneg _)
        _ = |c - t| := mul_one _
    · intro hct
      constructor <;> [skip; skip] <;> rw [smoothStep] <;> nlinarith
    · intro htc
      constructor <;> [skip; skip] <;> rw [smoothStep] <;> nlinarith
  · intro c t rate dt n hrate hdt hle hn
    have hm : min (1 : ℚ) (rate * dt) = rate * dt := min_eq_right hle
    rw [smoothIter_sub_target, hm, abs_mul, abs_pow]
    have hx0 : 0 < rate * dt := mul_pos hrate hdt
    have hx1 : rate * dt ≤ 1 := hle
    have habs : |1 - rate * dt| = 1 - rate * dt := abs_of_nonneg (by linarith)
    rw [habs]
    have hnx : (5 : ℚ) ≤ (n : ℚ) * (rate * dt) := by
      rw [div_le_iff₀ hrate] at hn
      nlinarith
    have hpow : (1 - rate * dt) ^ n ≤ 1 / 100 :=
      one_sub_pow_le_inv_hundred hx0 hx1 hnx
    calc |c - t| * (1 - rate * dt) ^ n ≤ |c - t| * (1 / 100) :=
          mul_le_mul_of_nonneg_left hpow (abs_nonneg _)
      _ = |c - t| / 100 := by ring

theorem dual_rate_smoother_witness :
    (0 < (6 : ℚ)) ∧ (0 < (1 / 12 : ℚ)) ∧ ((6 : ℚ) * (1 / 12) ≤ 1)
      ∧ ((5 : ℚ) / 6 ≤ ((10 : Nat) : ℚ) * (1 / 12))
      ∧ |smoothIter 10 1 0 6 (1 / 12) - 0| ≤ |(1 : ℚ) - 0| / 100 :=
  ⟨by norm_num, by norm_num, by norm_num, by norm_num,
   dual_rate_smoother.2.2 1 0 6 (1 / 12) 10
     (by norm_num) (by norm_num) (by norm_num) (by norm_num)⟩

/-- C10: on a render tick, a registered channel whose name is absent from
the most recently applied mapper output is driven toward the implicit
target `0` (`this._targetWeights[name] ?? 0`), and with no further signals
its weight converges to 0 over subsequent ticks: below any `ε > 0` after
enough ticks. -/
theorem missing_channel_decays (name : String) (w0 dt : ℚ)
    (targets : List (String × ℚ)) (hmiss : targets.lookup name = none) :
    animateTick [(name, w0)] targets dt
        = [(name, smoothStep w0 0 (lerpSpeed name) dt)]
      ∧ (0 < dt → ∀ ε : ℚ, 0 < ε → ∃ N : Nat, ∀ m : Nat, N ≤ m →
          |smoothIter m w0 0 (lerpSpeed name) dt| ≤ ε) := by
  constructor
  · simp [animateTick, hmiss]
  · intro hdt ε hε
    have hrate : 0 < lerpSpeed name := by
      rw [lerpSpeed]; split <;> norm_num [MOUTH_LERP, EXPR_LERP]
    set r : ℚ := 1 - min 1 (lerpSpeed name * dt) with hr
    have hm0 : 0 < min 1 (lerpSpeed name * dt) :=
      lt_min (by norm_num) (mul_pos hrate hdt)
    have hm1 : min 1 (lerpSpeed name * dt) ≤ 1 := min_le_left _ _
    have hr0 : 0 ≤ r := by rw [hr]; linarith
    have hr1 : r < 1 := by rw [hr]; linarith
    have hwpos : 0 < |w0| + 1 := by positivity
    have hεq : 0 < ε / (|w0| + 1) := div_pos hε hwpos
    obtain ⟨N, hN⟩ := exists_pow_lt_of_lt_one hεq hr1
    refine ⟨N, fun m hm => ?_⟩
    have hgap := smoothIter_sub_target m w0 0 (lerpSpeed name) dt
    rw [sub_zero, sub_zero] at hgap
    rw [hgap, abs_mul, abs_pow, abs_of_nonneg hr0]
    have hrm : r ^ m ≤ r ^ N := pow_le_pow_of_le_one hr0 (le_of_lt hr1) hm
    have step1 : |w0| * r ^ m ≤ |w0| * (ε / (|w0| + 1)) := by
      apply mul_le_mul_of_nonneg_left _ (abs_nonneg _)
      exact le_trans hrm (le_of_lt hN)
    have step2 : |w0| * (ε / (|w0| + 1)) ≤ ε := by
      rw [mul_comm, div_mul_eq_mul_div, div_le_iff₀ hwpos]
      nlinarith [abs_nonneg w0, hε.le]
    exact le_trans step1 step2

theorem missing_channel_decays_witness :
    (([] : List (String × ℚ)).lookup "Ellie face annoyed" = none)
      ∧ (animateTick [("Ellie face annoyed", 1)] [] (1 / 60)
          = [("Ellie face annoyed", smoothStep 1 0 (lerpSpeed "Ellie face annoyed") (1 / 60))]
        ∧ (0 < (1 / 60 : ℚ) → ∀ ε : ℚ, 0 < ε → ∃ N : Nat, ∀ m : Nat, N ≤ m →
            |smoothIter m 1 0 (lerpSpeed "Ellie face annoyed") (1 / 60)| ≤ ε)) :=
  ⟨rfl, missing_channel_decays "Ellie face annoyed" 1 (1 / 60) [] rfl⟩

theorem tickIter_succ_eq (known : String → Bool) (dt : ℚ) (n : Nat) (m : AnimMachine) :
    tickIter known dt (n + 1) m
      = updateAnimTransition known dt (tickIter known dt n m) := by
  induction n generalizing m with
  | zero => rfl
  | succ n ih =>
    show tickIter known dt (n + 1) (updateAnimTransition known dt m) = _
    rw [ih (updateAnimTransition known dt m)]
    rfl

theorem div_fade (dt : ℚ) : dt / ANIM_FADE = 2 * dt := by
  rw [ANIM_FADE]; ring

/-- After one enqueue from the pristine controller the machine fades
directly toward the target (no `FadeToIdle` detour). -/
theorem enqueue_from_idle (known : String → Bool) (cmd : Pose)
    (hres : createAnimateAction known cmd = some cmd) :
    enqueuePose known initMachine cmd
      = ⟨.fadeToTarget, [], none, some cmd, 0, 0⟩ := by
  simp [enqueuePose, initMachine, startNextTransition, startNextAux, hres]

theorem pose_machine_invariant (known : String → Bool) (cmd : Pose) (dt : ℚ)
    (hres : createAnimateAction known cmd = some cmd) (hdt : 0 < dt) :
    ∀ n : Nat, (n : ℚ) * dt ≤ 2 →
      (2 * (n : ℚ) * dt < 1
          ∧ tickIter known dt n (enqueuePose known initMachine cmd)
            = ⟨.fadeToTarget, [], none, some cmd, 2 * (n : ℚ) * dt, 0⟩)
        ∨ (1 ≤ 2 * (n : ℚ) * dt
          ∧ ∃ t' h' : ℚ, 2 + dt - (n : ℚ) * dt ≤ h' ∧ h' ≤ 2
              ∧ tickIter known dt n (enqueuePose known initMachine cmd)
                = ⟨.holding, [], some cmd, none, t', h'⟩) := by
  intro n
  induction n with
  | zero =>
    intro _
    left
    refine ⟨by norm_num [hdt], ?_⟩
    show enqueuePose known initMachine cmd = _
    rw [enqueue_from_idle known cmd hres]
    norm_num
  | succ n ih =>
    intro hbound
    have hcast : ((n + 1 : Nat) : ℚ) = (n : ℚ) + 1 := by push_cast; ring
    have hb' : (n : ℚ) * dt ≤ 2 := by
      rw [hcast] at hbound; nlinarith
    rcases ih hb' with ⟨hlt, heq⟩ | ⟨hge, t', h', hh1, hh2, heq⟩
    · rw [tickIter_succ_eq, heq]
      by_cases hc : (1 : ℚ) ≤ 2 * (n : ℚ) * dt + dt / ANIM_FADE
      · right
        have hc2 : (1 : ℚ) ≤ 2 * ((n : ℚ) + 1) * dt := by
          rw [div_fade] at hc; nlinarith
        refine ⟨by rw [hcast]; nlinarith, 2 * (n : ℚ) * dt + dt / ANIM_FADE, ANIM_HOLD,
          ?_, by norm_num [ANIM_HOLD], ?_⟩
        · rw [hcast, ANIM_HOLD]; nlinarith
        · simp only [updateAnimTransition, if_pos hc]
      · left
        have hc2 : 2 * ((n : ℚ) + 1) * dt < 1 := by
          rw [div_fade] at hc; nlinarith
        refine ⟨by rw [hcast]; nlinarith, ?_⟩
        simp only [updateAnimTransition, if_neg hc]
        rw [hcast, div_fade]
        norm_num
        ring
    · rw [tickIter_succ_eq, heq]
      have hpos : ¬ (h' - dt ≤ 0) := by
        rw [hcast] at hbound; nlinarith
      right
      refine ⟨by rw [hcast]; nlinarith, t', h' - dt, ?_, by linarith, ?_⟩
      · rw [hcast]; nlinarith
      · simp only [updateAnimTransition, if_neg hpos]

/-- C4 counterexample: from `Idle`, enqueuing one resolving PoseCommand and
running one render tick worth one fade duration (0.5 s) already puts the
machine in `Holding` — `Holding` begins after one fade duration, not after
two (2 · 0.5 s = 1 s) as the claim states. -/
theorem holding_after_one_fade :
    ((enqueuePose kAll initMachine wCmd).animState = .fadeToTarget)
      ∧ ((tickIter kAll (1 / 2) 1 (enqueuePose kAll initMachine wCmd)).animState
          = .holding)
      ∧ ((1 : ℚ) * (1 / 2) = ANIM_FADE ∧ ANIM_FADE < 2 * ANIM_FADE) := by
  have hres : createAnimateAction kAll wCmd = some wCmd := by
    simp [createAnimateAction, kAll, wCmd]
  refine ⟨?_, ?_, by norm_num [ANIM_FADE], by norm_num [ANIM_FADE]⟩
  · rw [enqueue_from_idle kAll wCmd hres]
  · rcases pose_machine_invariant kAll wCmd (1 / 2) hres (by norm_num) 1 (by norm_num)
      with ⟨hlt, _⟩ | ⟨_, t', h', _, _, heq⟩
    · norm_num at hlt
    · rw [heq]

/-- C4 (amended): from `Idle`, enqueuing one PoseCommand that resolves to an
action makes the machine enter `FadeToTarget` directly (it never passes
through `FadeToIdle`), and it reaches `Holding` after exactly one fade
duration: running uniform ticks of any duration `dt`, the machine is in
`Holding` precisely once the simulated time `n·dt` reaches `0.5 s` (and in
`FadeToTarget` before), for as long as the 2 s hold has not expired. -/
theorem pose_idle_to_holding (known : String → Bool) (cmd : Pose) (dt : ℚ) (n : Nat)
    (hres : createAnimateAction known cmd = some cmd)
    (hdt : 0 < dt) (htot : (n : ℚ) * dt ≤ 2) :
    ((enqueuePose known initMachine cmd).animState = .fadeToTarget)
      ∧ ((tickIter known dt n (enqueuePose known initMachine cmd)).animState = .holding
          ↔ 1 / 2 ≤ (n : ℚ) * dt)
      ∧ ((tickIter known dt n (enqueuePose known initMachine cmd)).animState = .holding
          ∨ (tickIter known dt n (enqueuePose known initMachine cmd)).animState
            = .fadeToTarget) := by
  refine ⟨by rw [enqueue_from_idle known cmd hres], ?_, ?_⟩ <;>
    rcases pose_machine_invariant known cmd dt hres hdt n htot
      with ⟨hlt, heq⟩ | ⟨hge, t', h', _, _, heq⟩
  · rw [heq]
    constructor
    · intro h; exact absurd h (by simp)
    · intro h; exfalso; nlinarith
  · rw [heq]
    constructor
    · intro _; nlinarith
    · intro _; rfl
  · right; rw [heq]
  · left; rw [heq]

theorem pose_idle_to_holding_witness :
    (createAnimateAction kAll wCmd = some wCmd) ∧ (0 < (1 / 4 : ℚ))
      ∧ (((2 : Nat) : ℚ) * (1 / 4) ≤ 2)
      ∧ (((enqueuePose kAll initMachine wCmd).animState = .fadeToTarget)
          ∧ ((tickIter kAll (1 / 4) 2 (enqueuePose kAll initMachine wCmd)).animState
                = .holding
              ↔ 1 / 2 ≤ ((2 : Nat) : ℚ) * (1 / 4))
          ∧ ((tickIter kAll (1 / 4) 2 (enqueuePose kAll initMachine wCmd)).animState
                = .holding
              ∨ (tickIter kAll (1 / 4) 2 (enqueuePose kAll initMachine wCmd)).animState
                = .fadeToTarget)) :=
  ⟨by simp [createAnimateAction, kAll, wCmd], by norm_num, by norm_num,
   pose_idle_to_holding kAll wCmd (1 / 4) 2
     (by simp [createAnimateAction, kAll, wCmd]) (by norm_num) (by norm_num)⟩

theorem startNextAux_queue_le (known : String → Bool) :
    ∀ (q : List Pose) (m : AnimMachine),
      (startNextAux known q m).animQueue.length ≤ q.length := by
  intro q
  induction q with
  | nil =>
    intro m
    unfold startNextAux
    split <;> simp
  | cons clips rest ih =>
    intro m
    unfold startNextAux
    cases hca : createAnimateAction known clips with
    | none =>
      simp only [hca]
      exact le_trans (ih _) (by simp)
    | some act =>
      simp only [hca]
      simp

theorem ifstart_queue_le (known : String → Bool) (m2 : AnimMachine) :
    ((if m2.animState = AnimState.idle then startNextTransition known m2 else m2).animQueue).length
      ≤ m2.animQueue.length := by
  split
  · simpa [startNextTransition] using startNextAux_queue_le known m2.animQueue m2
  · exact le_refl _

theorem updateAnim_queue_le (known : String → Bool) (dt : ℚ) (m : AnimMachine) :
    (updateAnimTransition known dt m).animQueue.length ≤ m.animQueue.length := by
  unfold updateAnimTransition
  split
  · exact le_refl _
  · dsimp only
    split
    · split <;> simp
    · simp
  · dsimp only
    split <;> simp
  · dsimp only
    split
    · simpa [startNextTransition] using
        startNextAux_queue_le known m.animQueue { m with holdTimer := m.holdTimer - dt }
    · simp

theorem enqueue_queue_bound (known : String → Bool) (m : AnimMachine) (clips : Pose)
    (h : m.animQueue.length ≤ 3) :
    (enqueuePose known m clips).animQueue.length ≤ 3 := by
  have hm2 : ((if 3 ≤ m.animQueue.length
        then { m with animQueue := m.animQueue.tail } else m).animQueue
      ++ [clips]).length ≤ 3 := by
    split <;> simp <;> omega
  have key := ifstart_queue_le known
    { (if 3 ≤ m.animQueue.length then { m with animQueue := m.animQueue.tail } else m) with
      animQueue :=
        (if 3 ≤ m.animQueue.length then { m with animQueue := m.animQueue.tail } else m).animQueue
          ++ [clips] }
  exact le_trans key hm2

/-- Enqueuing on a machine that is not idle only edits the queue:
drop-oldest when full, then append. -/
theorem enqueue_not_idle (known : String → Bool) (m : AnimMachine) (clips : Pose)
    (hst : m.animState ≠ .idle) :
    enqueuePose known m clips
      = { m with animQueue :=
            (if 3 ≤ m.animQueue.length then m.animQueue.tail else m.animQueue)
              ++ [clips] } := by
  unfold enqueuePose
  by_cases h3 : 3 ≤ m.animQueue.length <;> simp [h3, hst]

/-- C5: in every reachable state of the pose machine the queue holds at most
3 pending commands; enqueuing while the machine is not idle appends after
discarding the oldest entry exactly when the queue is full; hence enqueuing
5 commands on a `Holding` machine with an empty queue leaves exactly the 3
most recently enqueued commands. -/
theorem pose_queue_bound (known : String → Bool) :
    (∀ m : AnimMachine, Reaches known m → m.animQueue.length ≤ 3)
      ∧ (∀ (m : AnimMachine) (clips : Pose), m.animState ≠ .idle →
          (enqueuePose known m clips).animQueue
            = (if 3 ≤ m.animQueue.length then m.animQueue.tail else m.animQueue)
              ++ [clips])
      ∧ (∀ (m : AnimMachine) (p1 p2 p3 p4 p5 : Pose),
          m.animState = .holding → m.animQueue = [] →
          ([p1, p2, p3, p4, p5].foldl (enqueuePose known) m).animQueue
            = [p3, p4, p5]) := by
  refine ⟨?_, ?_, ?_⟩
  · intro m hm
    induction hm with
    | init => simp [initMachine]
    | enqueue clips _ ih => exact enqueue_queue_bound known _ clips ih
    | tick dt _ ih => exact le_trans (updateAnim_queue_le known dt _) ih
  · intro m clips hst
    rw [enqueue_not_idle known m clips hst]
  · intro m p1 p2 p3 p4 p5 hst hq
    have hne : m.animState ≠ .idle := by rw [hst]; simp
    have e1 : enqueuePose known m p1 = { m with animQueue := [p1] } := by
      rw [enqueue_not_idle known m p1 hne, hq]; simp
    have hne1 : ({ m with animQueue := [p1] } : AnimMachine).animState ≠ .idle := hne
    have e2 : enqueuePose known { m with animQueue := [p1] } p2
        = { m with animQueue := [p1, p2] } := by
      rw [enqueue_not_idle known _ p2 hne1]; simp
    have e3 : enqueuePose known { m with animQueue := [p1, p2] } p3
        = { m with animQueue := [p1, p2, p3] } := by
      rw [enqueue_not_idle known { m with animQueue := [p1, p2] } p3 hne]; simp
    have e4 : enqueuePose known { m with animQueue := [p1, p2, p3] } p4
        = { m with animQueue := [p2, p3, p4] } := by
      rw [enqueue_not_idle known { m with animQueue := [p1, p2, p3] } p4 hne]; simp
    have e5 : enqueuePose known { m with animQueue := [p2, p3, p4] } p5
        = { m with animQueue := [p3, p4, p5] } := by
      rw [enqueue_not_idle known { m with animQueue := [p2, p3, p4] } p5 hne]; simp
    simp only [List.foldl_cons, List.foldl_nil, e1, e2, e3, e4, e5]

theorem pose_queue_bound_witness :
    (Reaches kAll initMachine ∧ initMachine.animQueue.length ≤ 3)
      ∧ (wHold.animState = .holding ∧ wHold.animQueue = []
          ∧ ([[("a", 1)], [("b", 1)], [("c", 1)], [("d", 1)], [("e", 1)]].foldl
              (enqueuePose kAll) wHold).animQueue
            = [[("c", 1)], [("d", 1)], [("e", 1)]]) :=
  ⟨⟨Reaches.init, (pose_queue_bound kAll).1 initMachine Reaches.init⟩,
   ⟨rfl, rfl,
    (pose_queue_bound kAll).2.2 wHold [("a", 1)] [("b", 1)] [("c", 1)] [("d", 1)] [("e", 1)]
      rfl rfl⟩⟩

end Personas
